import Mathlib

/-!
Verification of the Semantic Coverage Scoring Engine
(`src/fame/evaluation/coverage.py`).

The engine is embedded shallowly over exact rational arithmetic:

* `Node`, `extract_nodes` (with a small model `XElem` of the already-parsed
  FeatureIDE XML tree), `CoverageConfig`, and the scoring pipeline
  `combined` / `rowScores` / `sortedDesc` / `topMatches` / `validScores` /
  `nodeCoverage` / `totalCoverage` / `score` follow the source line by line.
* The embedding provider (`SentenceTransformer.encode` + `util.cos_sim`) is an
  injected deterministic function `sim : String → String → ℚ`; claims that
  need it in range quantify over providers whose values lie in `[-1, 1]`.
* Python's `round(x, 2)` (round half to even) is modelled exactly by
  `roundHalfEven` / `pyRound2`.
* The source sorts tuples `(score, ax, ap, s_node, s_parent)` with the sort
  key `x[0]`; the components other than the score feed only the verbose
  printing, which carries no semantics back into the returned value, so the
  embedding sorts the list of scores.
-/

namespace Fame

/-- Node = `(name, parent_name)`, coverage.py line 12. -/
abbrev Node := String × Option String

/-- An already-parsed XML element: tag, the optional `name` attribute
(`node.attrib.get("name")`), and the list of child elements. -/
inductive XElem where
  | mk (tag : String) (nameAttr : Option String) (children : List XElem)

def XElem.tag : XElem → String
  | .mk t _ _ => t

def XElem.nameAttr : XElem → Option String
  | .mk _ n _ => n

def XElem.children : XElem → List XElem
  | .mk _ _ c => c

mutual

/-- The inner `walk(node, parent_name)` of `extract_nodes` (coverage.py
lines 29–39): a node whose tag is one of `and`/`or`/`alt`/`feature` and whose
`name` attribute is truthy (present and non-empty) is emitted and becomes the
parent passed to its children; otherwise the current parent is passed through. -/
def walk (parent_name : Option String) : XElem → List Node
  | .mk tag nm children =>
    match nm with
    | some n =>
      if (tag = "and" ∨ tag = "or" ∨ tag = "alt" ∨ tag = "feature") ∧ n ≠ "" then
        (n, parent_name) :: walkAll (some n) children
      else
        walkAll parent_name children
    | none => walkAll parent_name children

/-- Walks a list of sibling elements in document order (the `for child in node`
loop of coverage.py line 38, and the top-level loop of line 41). -/
def walkAll (parent_name : Option String) : List XElem → List Node
  | [] => []
  | c :: cs => walk parent_name c ++ walkAll parent_name cs

end

/-- `extract_nodes` (coverage.py lines 15–44): looks for the direct child
tagged `struct`; raises `ValueError("Invalid FeatureIDE XML: <struct> not
found")` when there is none, else walks every top-level child with no parent. -/
def extract_nodes (root : XElem) : Except String (List Node) :=
  match root.children.find? (fun c => c.tag == "struct") with
  | none => Except.error "Invalid FeatureIDE XML: <struct> not found"
  | some st => Except.ok (walkAll none st.children)

/-- `CoverageConfig` (coverage.py lines 47–53) with its defaults. -/
structure CoverageConfig where
  model_name : String := "all-mpnet-base-v2"
  similarity_threshold : ℚ := 35/100
  top_k : ℕ := 3
  feature_weight : ℚ := 9/10
  parent_weight : ℚ := 1/10

/-- The default `CoverageConfig()` used by `CoverageEvaluator.__init__`. -/
def defaultConfig : CoverageConfig := {}

/-- Key set of the parent-embedding dictionaries (coverage.py lines 82–87):
one key per truthy (non-empty) parent name occurring in the node list. -/
def parentKeys (nodes : List Node) : List String :=
  (nodes.filterMap Prod.snd).filter (fun s => s ≠ "")

/-- The `s_parent` computation (coverage.py lines 99–104): `hp` and `ap` truthy
and both found among the embedded parent keys gives the parents' cosine
similarity, anything else contributes `0.0`. -/
def parentSim (sim : String → String → ℚ) (human_nodes auto_nodes : List Node)
    (hp ap : Option String) : ℚ :=
  match hp, ap with
  | some h, some a =>
    if h ≠ "" ∧ a ≠ "" ∧ h ∈ parentKeys human_nodes ∧ a ∈ parentKeys auto_nodes then
      sim h a
    else 0
  | _, _ => 0

/-- The combined pairwise score (coverage.py line 106):
`feature_weight * s_node + parent_weight * s_parent`. -/
def combined (cfg : CoverageConfig) (sim : String → String → ℚ)
    (human_nodes auto_nodes : List Node) (h c : Node) : ℚ :=
  cfg.feature_weight * sim h.1 c.1
    + cfg.parent_weight * parentSim sim human_nodes auto_nodes h.2 c.2

/-- The `similarities` list of one reference row (coverage.py lines 95–107),
kept as the list of scores (the tuple's other fields feed only printing). -/
def rowScores (cfg : CoverageConfig) (sim : String → String → ℚ)
    (human_nodes auto_nodes : List Node) (h : Node) : List ℚ :=
  auto_nodes.map (fun c => combined cfg sim human_nodes auto_nodes h c)

/-- `similarities.sort(reverse=True, key=lambda x: x[0])` (coverage.py
line 109): sort descending by score. -/
def sortedDesc (l : List ℚ) : List ℚ :=
  l.insertionSort (· ≥ ·)

/-- `top_matches = similarities[: self.cfg.top_k]` (coverage.py line 110). -/
def topMatches (cfg : CoverageConfig) (sim : String → String → ℚ)
    (human_nodes auto_nodes : List Node) (h : Node) : List ℚ :=
  (sortedDesc (rowScores cfg sim human_nodes auto_nodes h)).take cfg.top_k

/-- `valid_scores = [s for s, *_ in top_matches if s >= threshold]`
(coverage.py line 111). -/
def validScores (cfg : CoverageConfig) (sim : String → String → ℚ)
    (human_nodes auto_nodes : List Node) (h : Node) : List ℚ :=
  (topMatches cfg sim human_nodes auto_nodes h).filter
    (fun s => cfg.similarity_threshold ≤ s)

/-- One reference node's contribution to `total_coverage` (coverage.py
lines 113–115): nothing is added when `valid_scores` is empty, else
`1 - np.prod([1 - s for s in valid_scores])`. -/
def nodeCoverage (cfg : CoverageConfig) (sim : String → String → ℚ)
    (human_nodes auto_nodes : List Node) (h : Node) : ℚ :=
  if validScores cfg sim human_nodes auto_nodes h = [] then 0
  else 1 - ((validScores cfg sim human_nodes auto_nodes h).map (fun s => 1 - s)).prod

/-- `total_coverage` after the loop over `human_nodes` (coverage.py
lines 89–115). -/
def totalCoverage (cfg : CoverageConfig) (sim : String → String → ℚ)
    (human_nodes auto_nodes : List Node) : ℚ :=
  (human_nodes.map (fun h => nodeCoverage cfg sim human_nodes auto_nodes h)).sum

/-- Python's banker's rounding of a rational to the nearest integer:
the fractional part decides, an exact tie goes to the even neighbour. -/
def roundHalfEven (q : ℚ) : ℤ :=
  if q - ⌊q⌋ < 1/2 then ⌊q⌋
  else if 1/2 < q - ⌊q⌋ then ⌊q⌋ + 1
  else if ⌊q⌋ % 2 = 0 then ⌊q⌋ else ⌊q⌋ + 1

/-- Python's `round(q, 2)` (coverage.py line 135) over exact rationals. -/
def pyRound2 (q : ℚ) : ℚ :=
  (roundHalfEven (q * 100) : ℚ) / 100

/-- `CoverageEvaluator.score` on already-extracted node sequences
(coverage.py lines 68–135): `0.0` for an empty reference list, otherwise
`round((total_coverage / len(human_nodes)) * 100, 2)`. -/
def score (cfg : CoverageConfig) (sim : String → String → ℚ)
    (human_nodes auto_nodes : List Node) : ℚ :=
  if human_nodes = [] then 0
  else pyRound2 (totalCoverage cfg sim human_nodes auto_nodes / (human_nodes.length : ℚ) * 100)

/-- `CoverageEvaluator.score` from the XML documents (coverage.py lines 69–70):
both extractions run before anything else and their `ValueError` propagates
to the caller unhandled. -/
def scoreXml (cfg : CoverageConfig) (sim : String → String → ℚ)
    (human_xml auto_xml : XElem) : Except String ℚ :=
  match extract_nodes human_xml with
  | Except.error e => Except.error e
  | Except.ok human_nodes =>
    match extract_nodes auto_xml with
    | Except.error e => Except.error e
    | Except.ok auto_nodes => Except.ok (score cfg sim human_nodes auto_nodes)

/-- The spec's noisy-OR combination (§4.3 step 5): over valid scores
`s_1..s_m` the coverage is `1 - Π (1 - s_t)`; stated from the spec's words,
to be compared with the per-node computation of the source. -/
def specNoisyOR (scores : List ℚ) : ℚ :=
  1 - (scores.map (fun s => 1 - s)).prod

/-- A provider that returns similarity 1 for identical strings and 0
otherwise (values lie in `[0, 1] ⊆ [-1, 1]`). -/
def simIdOnly (a b : String) : ℚ :=
  if a = b then 1 else 0

/-- A provider realizing the spec's noisy-OR example: the reference name `r`
scores `2/3` against `c1` and `5/9` against `c2`, so the combined scores under
the default weights are `0.6` and `0.5`. -/
def simC2 (a b : String) : ℚ :=
  if a = "r" ∧ b = "c1" then 2/3 else if a = "r" ∧ b = "c2" then 5/9 else 0

/-- A cosine-style provider taking a negative value: `-1/2 ∈ [-1, 1]` for
distinct strings, 1 for identical ones. -/
def simNeg (a b : String) : ℚ :=
  if a = b then 1 else -1/2

/-- A provider for the top-k counterexample: `a` scores `5/9` against `b`
and `-1/2` against `c`. -/
def simC5 (a b : String) : ℚ :=
  if a = "a" ∧ b = "b" then 5/9 else if a = "a" ∧ b = "c" then -1/2 else 0

end Fame

namespace Fame

/-! Helper lemmas: products of factors in the unit interval, the banker's
rounding, and membership facts about the per-row score lists. -/

theorem listProd_nonneg {l : List ℚ} (h : ∀ x ∈ l, 0 ≤ x) : 0 ≤ l.prod := by
  induction l with
  | nil => simp
  | cons a t ih =>
    rw [List.prod_cons]
    exact mul_nonneg (h a (List.mem_cons_self a t))
      (ih (fun x hx => h x (List.mem_cons_of_mem a hx)))

theorem listProd_le_one {l : List ℚ} (h : ∀ x ∈ l, 0 ≤ x ∧ x ≤ 1) : l.prod ≤ 1 := by
  induction l with
  | nil => simp
  | cons a t ih =>
    rw [List.prod_cons]
    have ha := h a (List.mem_cons_self a t)
    have ht : ∀ x ∈ t, 0 ≤ x ∧ x ≤ 1 := fun x hx => h x (List.mem_cons_of_mem a hx)
    calc a * t.prod ≤ 1 * 1 :=
          mul_le_mul ha.2 (ih ht) (listProd_nonneg (fun x hx => (ht x hx).1)) zero_le_one
      _ = 1 := one_mul 1

theorem oneSubProd_nonneg {l : List ℚ} (h : ∀ x ∈ l, x ≤ 1) :
    0 ≤ (l.map (fun s => 1 - s)).prod := by
  refine listProd_nonneg (fun x hx => ?_)
  rcases List.mem_map.mp hx with ⟨s, hs, rfl⟩
  linarith [h s hs]

theorem oneSubProd_le_one {l : List ℚ} (h : ∀ x ∈ l, 0 ≤ x ∧ x ≤ 1) :
    (l.map (fun s => 1 - s)).prod ≤ 1 := by
  refine listProd_le_one (fun x hx => ?_)
  rcases List.mem_map.mp hx with ⟨s, hs, rfl⟩
  exact ⟨by linarith [(h s hs).2], by linarith [(h s hs).1]⟩

/-- Dropping factors `1 - s` with `s ∈ [0, 1]` from the product can only make
it larger: filtering the score list raises the product of `1 - s`. -/
theorem oneSubProd_le_filter (p : ℚ → Bool) {l : List ℚ}
    (h : ∀ x ∈ l, 0 ≤ x ∧ x ≤ 1) :
    (l.map (fun s => 1 - s)).prod ≤ ((l.filter p).map (fun s => 1 - s)).prod := by
  induction l with
  | nil => simp
  | cons a t ih =>
    have ha := h a (List.mem_cons_self a t)
    have ht : ∀ x ∈ t, 0 ≤ x ∧ x ≤ 1 := fun x hx => h x (List.mem_cons_of_mem a hx)
    rw [List.filter_cons]
    by_cases hpa : p a
    · rw [if_pos hpa]
      simp only [List.map_cons, List.prod_cons]
      exact mul_le_mul_of_nonneg_left (ih ht) (by linarith [ha.2])
    · rw [if_neg hpa]
      simp only [List.map_cons, List.prod_cons]
      calc (1 - a) * (t.map (fun s => 1 - s)).prod
          ≤ 1 * (t.map (fun s => 1 - s)).prod :=
            mul_le_mul_of_nonneg_right (by linarith [ha.1])
              (oneSubProd_nonneg (fun x hx => (ht x hx).2))
        _ = (t.map (fun s => 1 - s)).prod := one_mul _
        _ ≤ ((t.filter p).map (fun s => 1 - s)).prod := ih ht

theorem roundHalfEven_ge_floor (q : ℚ) : ⌊q⌋ ≤ roundHalfEven q := by
  unfold roundHalfEven
  split_ifs <;> omega

theorem roundHalfEven_le_floor_add_one (q : ℚ) : roundHalfEven q ≤ ⌊q⌋ + 1 := by
  unfold roundHalfEven
  split_ifs <;> omega

theorem roundHalfEven_mono {x y : ℚ} (hxy : x ≤ y) :
    roundHalfEven x ≤ roundHalfEven y := by
  have hf : ⌊x⌋ ≤ ⌊y⌋ := Int.floor_le_floor hxy
  by_cases hlt : ⌊x⌋ < ⌊y⌋
  · calc roundHalfEven x ≤ ⌊x⌋ + 1 := roundHalfEven_le_floor_add_one x
      _ ≤ ⌊y⌋ := by omega
      _ ≤ roundHalfEven y := roundHalfEven_ge_floor y
  · have heq : ⌊x⌋ = ⌊y⌋ := le_antisymm hf (not_lt.mp hlt)
    unfold roundHalfEven
    rw [heq]
    have hxy' : x - ⌊y⌋ ≤ y - ⌊y⌋ := by
      have : ((⌊x⌋ : ℚ)) = ((⌊y⌋ : ℚ)) := by exact_mod_cast heq
      linarith
    split_ifs <;> first | omega | linarith

theorem roundHalfEven_intCast (n : ℤ) : roundHalfEven (n : ℚ) = n := by
  unfold roundHalfEven
  rw [Int.floor_intCast]
  norm_num

theorem pyRound2_mono {x y : ℚ} (hxy : x ≤ y) : pyRound2 x ≤ pyRound2 y := by
  unfold pyRound2
  have h1 : x * 100 ≤ y * 100 := by linarith
  have h2 : (roundHalfEven (x * 100) : ℚ) ≤ (roundHalfEven (y * 100) : ℚ) := by
    exact_mod_cast roundHalfEven_mono h1
  linarith

theorem pyRound2_eq_intCast_div {q : ℚ} {n : ℤ} (h : q * 100 = (n : ℚ)) :
    pyRound2 q = (n : ℚ) / 100 := by
  rw [pyRound2, h, roundHalfEven_intCast]

theorem pyRound2_zero : pyRound2 0 = 0 := by
  rw [pyRound2_eq_intCast_div (n := 0) (by norm_num)]
  norm_num

theorem pyRound2_hundred : pyRound2 100 = 100 := by
  rw [pyRound2_eq_intCast_div (n := 10000) (by norm_num)]
  norm_num

/-- Closed evaluation of `score` when the rounded quantity times 100 is the
integer `n`. -/
theorem score_eval {cfg : CoverageConfig} {sim : String → String → ℚ}
    {human_nodes auto_nodes : List Node} {n : ℤ} (h1 : human_nodes ≠ [])
    (h2 : totalCoverage cfg sim human_nodes auto_nodes / (human_nodes.length : ℚ)
        * 100 * 100 = (n : ℚ)) :
    score cfg sim human_nodes auto_nodes = (n : ℚ) / 100 := by
  rw [score, if_neg h1, pyRound2_eq_intCast_div h2]

end Fame

namespace Fame

theorem nodeCoverage_eq_specNoisyOR (cfg : CoverageConfig) (sim : String → String → ℚ)
    (human_nodes auto_nodes : List Node) (h : Node) :
    nodeCoverage cfg sim human_nodes auto_nodes h =
      specNoisyOR (validScores cfg sim human_nodes auto_nodes h) := by
  rw [nodeCoverage, specNoisyOR]
  by_cases hv : validScores cfg sim human_nodes auto_nodes h = []
  · rw [if_pos hv, hv]
    simp
  · rw [if_neg hv]

theorem mem_sortedDesc {l : List ℚ} {s : ℚ} : s ∈ sortedDesc l ↔ s ∈ l :=
  (List.perm_insertionSort _ l).mem_iff

theorem mem_topMatches {cfg : CoverageConfig} {sim : String → String → ℚ}
    {human_nodes auto_nodes : List Node} {h : Node} {s : ℚ}
    (hs : s ∈ topMatches cfg sim human_nodes auto_nodes h) :
    ∃ c ∈ auto_nodes, s = combined cfg sim human_nodes auto_nodes h c := by
  rw [topMatches] at hs
  have h1 : s ∈ sortedDesc (rowScores cfg sim human_nodes auto_nodes h) :=
    List.mem_of_mem_take hs
  have h2 : s ∈ rowScores cfg sim human_nodes auto_nodes h := mem_sortedDesc.mp h1
  rcases List.mem_map.mp h2 with ⟨c, hc, hceq⟩
  exact ⟨c, hc, hceq.symm⟩

theorem mem_validScores {cfg : CoverageConfig} {sim : String → String → ℚ}
    {human_nodes auto_nodes : List Node} {h : Node} {s : ℚ}
    (hs : s ∈ validScores cfg sim human_nodes auto_nodes h) :
    cfg.similarity_threshold ≤ s ∧
      ∃ c ∈ auto_nodes, s = combined cfg sim human_nodes auto_nodes h c := by
  rw [validScores] at hs
  have h1 := List.mem_filter.mp hs
  exact ⟨by simpa using h1.2, mem_topMatches h1.1⟩

theorem parentSim_bounds {sim : String → String → ℚ}
    (hsim : ∀ x y, -1 ≤ sim x y ∧ sim x y ≤ 1)
    (human_nodes auto_nodes : List Node) (hp ap : Option String) :
    -1 ≤ parentSim sim human_nodes auto_nodes hp ap ∧
      parentSim sim human_nodes auto_nodes hp ap ≤ 1 := by
  rcases hp with _ | h <;> rcases ap with _ | a <;> simp only [parentSim]
  · norm_num
  · norm_num
  · norm_num
  · split_ifs
    · exact hsim h a
    · norm_num

theorem combined_bounds {cfg : CoverageConfig} {sim : String → String → ℚ}
    {human_nodes auto_nodes : List Node}
    (hfw : 0 ≤ cfg.feature_weight) (hpw : 0 ≤ cfg.parent_weight)
    (hsum : cfg.feature_weight + cfg.parent_weight ≤ 1)
    (hsim : ∀ x y, -1 ≤ sim x y ∧ sim x y ≤ 1) (h c : Node) :
    -1 ≤ combined cfg sim human_nodes auto_nodes h c ∧
      combined cfg sim human_nodes auto_nodes h c ≤ 1 := by
  have hs := hsim h.1 c.1
  have hp := parentSim_bounds hsim human_nodes auto_nodes h.2 c.2
  have h1 : cfg.feature_weight * sim h.1 c.1 ≤ cfg.feature_weight * 1 :=
    mul_le_mul_of_nonneg_left hs.2 hfw
  have h2 : cfg.feature_weight * (-1) ≤ cfg.feature_weight * sim h.1 c.1 :=
    mul_le_mul_of_nonneg_left hs.1 hfw
  have h3 : cfg.parent_weight * parentSim sim human_nodes auto_nodes h.2 c.2 ≤
      cfg.parent_weight * 1 := mul_le_mul_of_nonneg_left hp.2 hpw
  have h4 : cfg.parent_weight * (-1) ≤
      cfg.parent_weight * parentSim sim human_nodes auto_nodes h.2 c.2 :=
    mul_le_mul_of_nonneg_left hp.1 hpw
  rw [combined]
  constructor <;> nlinarith

theorem validScores_mem_unit {cfg : CoverageConfig} {sim : String → String → ℚ}
    {human_nodes auto_nodes : List Node} {h : Node}
    (hfw : 0 ≤ cfg.feature_weight) (hpw : 0 ≤ cfg.parent_weight)
    (hsum : cfg.feature_weight + cfg.parent_weight ≤ 1)
    (ht : 0 ≤ cfg.similarity_threshold)
    (hsim : ∀ x y, -1 ≤ sim x y ∧ sim x y ≤ 1) :
    ∀ s ∈ validScores cfg sim human_nodes auto_nodes h, 0 ≤ s ∧ s ≤ 1 := by
  intro s hs
  obtain ⟨hth, c, hc, rfl⟩ := mem_validScores hs
  exact ⟨le_trans ht hth, (combined_bounds hfw hpw hsum hsim h c).2⟩

theorem nodeCoverage_bounds {cfg : CoverageConfig} {sim : String → String → ℚ}
    {human_nodes auto_nodes : List Node} (h : Node)
    (hfw : 0 ≤ cfg.feature_weight) (hpw : 0 ≤ cfg.parent_weight)
    (hsum : cfg.feature_weight + cfg.parent_weight ≤ 1)
    (ht : 0 ≤ cfg.similarity_threshold)
    (hsim : ∀ x y, -1 ≤ sim x y ∧ sim x y ≤ 1) :
    0 ≤ nodeCoverage cfg sim human_nodes auto_nodes h ∧
      nodeCoverage cfg sim human_nodes auto_nodes h ≤ 1 := by
  rw [nodeCoverage_eq_specNoisyOR, specNoisyOR]
  have hmem : ∀ s ∈ validScores cfg sim human_nodes auto_nodes h, 0 ≤ s ∧ s ≤ 1 :=
    validScores_mem_unit hfw hpw hsum ht hsim
  constructor
  · have := oneSubProd_le_one hmem
    linarith
  · have := oneSubProd_nonneg (l := validScores cfg sim human_nodes auto_nodes h)
      (fun x hx => (hmem x hx).2)
    linarith

end Fame

namespace Fame

/-- C9: the empty-reference degenerate case. For every candidate node sequence
and every configuration and provider, scoring an empty reference sequence
returns exactly 0 — a defined result produced by the explicit early return of
coverage.py lines 72–73, not an error. -/
theorem score_empty_reference (cfg : CoverageConfig) (sim : String → String → ℚ)
    (auto_nodes : List Node) : score cfg sim [] auto_nodes = 0 := by
  rw [score, if_pos rfl]

/-- C6: range. For all node sequences and every provider whose similarities
lie in [-1, 1], under nonnegative weights summing to at most 1 and a
nonnegative threshold (the default configuration satisfies all of these),
the returned score lies in [0, 100]. -/
theorem score_range (cfg : CoverageConfig) (sim : String → String → ℚ)
    (human_nodes auto_nodes : List Node)
    (hfw : 0 ≤ cfg.feature_weight) (hpw : 0 ≤ cfg.parent_weight)
    (hsum : cfg.feature_weight + cfg.parent_weight ≤ 1)
    (ht : 0 ≤ cfg.similarity_threshold)
    (hsim : ∀ x y, -1 ≤ sim x y ∧ sim x y ≤ 1) :
    0 ≤ score cfg sim human_nodes auto_nodes ∧
      score cfg sim human_nodes auto_nodes ≤ 100 := by
  by_cases hemp : human_nodes = []
  · rw [score, if_pos hemp]
    norm_num
  · rw [score, if_neg hemp]
    have hlen : 0 < ((human_nodes.length : ℚ)) := by
      have h0 : 0 < human_nodes.length := List.length_pos.mpr hemp
      exact_mod_cast h0
    have hcov : ∀ h ∈ human_nodes,
        0 ≤ nodeCoverage cfg sim human_nodes auto_nodes h ∧
          nodeCoverage cfg sim human_nodes auto_nodes h ≤ 1 :=
      fun h _ => nodeCoverage_bounds h hfw hpw hsum ht hsim
    have htot0 : 0 ≤ totalCoverage cfg sim human_nodes auto_nodes := by
      rw [totalCoverage]
      refine List.sum_nonneg ?_
      intro x hx
      rcases List.mem_map.mp hx with ⟨h, hh, rfl⟩
      exact (hcov h hh).1
    have htot1 : totalCoverage cfg sim human_nodes auto_nodes ≤ (human_nodes.length : ℚ) := by
      rw [totalCoverage]
      calc (human_nodes.map (fun h => nodeCoverage cfg sim human_nodes auto_nodes h)).sum
          ≤ (human_nodes.map (fun _ => (1:ℚ))).sum :=
            List.sum_le_sum (fun h hh => (hcov h hh).2)
        _ = (human_nodes.length : ℚ) := by simp
    have hraw0 : 0 ≤ totalCoverage cfg sim human_nodes auto_nodes /
        (human_nodes.length : ℚ) * 100 :=
      mul_nonneg (div_nonneg htot0 hlen.le) (by norm_num)
    have hraw1 : totalCoverage cfg sim human_nodes auto_nodes /
        (human_nodes.length : ℚ) * 100 ≤ 100 := by
      have hdiv : totalCoverage cfg sim human_nodes auto_nodes /
          (human_nodes.length : ℚ) ≤ 1 := (div_le_one hlen).mpr htot1
      linarith
    constructor
    · calc (0:ℚ) = pyRound2 0 := pyRound2_zero.symm
        _ ≤ pyRound2 _ := pyRound2_mono hraw0
    · calc pyRound2 _ ≤ pyRound2 100 := pyRound2_mono hraw1
        _ = 100 := pyRound2_hundred

/-- Witness for C6 at a concrete input: the default configuration and a
concrete 0/1-valued provider. -/
theorem score_range_witness :
    0 ≤ score defaultConfig simIdOnly [("X", none)] [("Y", none)] ∧
      score defaultConfig simIdOnly [("X", none)] [("Y", none)] ≤ 100 :=
  score_range defaultConfig simIdOnly [("X", none)] [("Y", none)]
    (by norm_num [defaultConfig]) (by norm_num [defaultConfig])
    (by norm_num [defaultConfig]) (by norm_num [defaultConfig])
    (fun x y => by simp only [simIdOnly]; split_ifs <;> norm_num)

/-- C2: per-reference-node noisy-OR aggregation. A node with non-empty valid
set gets coverage `1 - Π (1 - s_t)` over its valid scores, an empty valid set
gets 0; concretely, valid combined scores 0.6 and 0.5 (realized through the
whole pipeline by `simC2` under the default configuration) aggregate to 0.8,
which is neither the maximum 0.6 nor the capped sum 1.0. -/
theorem noisyOR_per_node :
    (∀ (cfg : CoverageConfig) (sim : String → String → ℚ)
        (human_nodes auto_nodes : List Node) (h : Node),
        validScores cfg sim human_nodes auto_nodes h ≠ [] →
        nodeCoverage cfg sim human_nodes auto_nodes h =
          specNoisyOR (validScores cfg sim human_nodes auto_nodes h))
  ∧ (∀ (cfg : CoverageConfig) (sim : String → String → ℚ)
        (human_nodes auto_nodes : List Node) (h : Node),
        validScores cfg sim human_nodes auto_nodes h = [] →
        nodeCoverage cfg sim human_nodes auto_nodes h = 0)
  ∧ validScores defaultConfig simC2 [("r", none)] [("c1", none), ("c2", none)] ("r", none)
      = [3/5, 1/2]
  ∧ nodeCoverage defaultConfig simC2 [("r", none)] [("c1", none), ("c2", none)] ("r", none)
      = 4/5
  ∧ specNoisyOR [3/5, 1/2] = 4/5
  ∧ specNoisyOR [3/5, 1/2] ≠ max (3/5) (1/2)
  ∧ specNoisyOR [3/5, 1/2] ≠ min 1 (3/5 + 1/2) := by
  refine ⟨?_, ?_, ?_, ?_, ?_, ?_, ?_⟩
  · intro cfg sim human_nodes auto_nodes h _
    exact nodeCoverage_eq_specNoisyOR cfg sim human_nodes auto_nodes h
  · intro cfg sim human_nodes auto_nodes h hv
    rw [nodeCoverage, if_pos hv]
  · simp [validScores, topMatches, sortedDesc, rowScores, combined, parentSim,
      parentKeys, simC2, defaultConfig, List.insertionSort, List.orderedInsert]
    norm_num
  · simp [nodeCoverage, validScores, topMatches, sortedDesc, rowScores, combined,
      parentSim, parentKeys, simC2, defaultConfig, List.insertionSort,
      List.orderedInsert]
    norm_num
  · norm_num [specNoisyOR]
  · norm_num [specNoisyOR]
  · norm_num [specNoisyOR]

end Fame

namespace Fame

/-- The maximum of a list survives the descending sort and a nonempty
truncation: if `m` is in `l` and bounds it, `m` is among the first `k`
entries of the descending sort for any `k > 0`. -/
theorem max_mem_take_sortedDesc {l : List ℚ} {m : ℚ} (hm : m ∈ l)
    (hle : ∀ s ∈ l, s ≤ m) {k : ℕ} (hk : 0 < k) : m ∈ (sortedDesc l).take k := by
  have hsorted : List.Sorted (· ≥ ·) (sortedDesc l) :=
    List.sorted_insertionSort (· ≥ ·) l
  have hmem : m ∈ sortedDesc l := mem_sortedDesc.mpr hm
  rcases hsd : sortedDesc l with _ | ⟨b, t⟩
  · rw [hsd] at hmem
    simp at hmem
  · rw [hsd] at hmem hsorted
    have hb_mem : b ∈ l := mem_sortedDesc.mp (hsd ▸ List.mem_cons_self b t)
    have hbm : b = m := by
      rcases List.mem_cons.mp hmem with heq | hmt
      · exact heq.symm
      · exact le_antisymm (hle b hb_mem) ((List.sorted_cons.mp hsorted).1 m hmt)
    obtain ⟨j, rfl⟩ : ∃ j, k = j + 1 := ⟨k - 1, by omega⟩
    rw [List.take_succ_cons, hbm]
    exact List.mem_cons_self m _

/-- C1 counterexample: `simIdOnly` returns similarity 1 for identical strings,
the two node sequences are literally identical, and the configuration is the
default, yet `score(A, A) = 90 ≠ 100`: the single node's parent is null, so its
self-match combines to `0.9 * 1 + 0.1 * 0 = 0.9` and the noisy-OR gives 0.9. -/
theorem self_coverage_counterexample :
    (∀ x, simIdOnly x x = 1)
  ∧ score defaultConfig simIdOnly [("X", none)] [("X", none)] = 90
  ∧ (90 : ℚ) ≠ 100 := by
  refine ⟨fun x => by simp [simIdOnly], ?_, by norm_num⟩
  have htot : totalCoverage defaultConfig simIdOnly [("X", none)] [("X", none)] = 9/10 := by
    simp [totalCoverage, nodeCoverage, validScores, topMatches, sortedDesc, rowScores,
      combined, parentSim, parentKeys, simIdOnly, defaultConfig, List.insertionSort,
      List.orderedInsert]
    norm_num
  have h2 : totalCoverage defaultConfig simIdOnly [("X", none)] [("X", none)] /
      (([("X", none)] : List Node).length : ℚ) * 100 * 100 = ((9000 : ℤ) : ℚ) := by
    rw [htot]
    norm_num
  rw [score_eval (by simp) h2]
  norm_num

/-- C1 amended: the self-coverage ceiling holds (default configuration,
provider giving identical strings similarity 1, values in [-1, 1]) provided
every node of the sequence carries a non-empty parent name; each node then
self-matches at combined score exactly 1, so every per-node coverage is 1 and
the score is 100. -/
theorem self_coverage_of_parents (sim : String → String → ℚ) (A : List Node)
    (hne : A ≠ [])
    (hpar : ∀ n ∈ A, ∃ p, n.2 = some p ∧ p ≠ "")
    (hid : ∀ x, sim x x = 1)
    (hrange : ∀ x y, -1 ≤ sim x y ∧ sim x y ≤ 1) :
    score defaultConfig sim A A = 100 := by
  have hcov : ∀ h ∈ A, nodeCoverage defaultConfig sim A A h = 1 := by
    intro h hmem
    obtain ⟨p, hp2, hpne⟩ := hpar h hmem
    have hpk : p ∈ parentKeys A := by
      rw [parentKeys]
      refine List.mem_filter.mpr ⟨List.mem_filterMap.mpr ⟨h, hmem, hp2⟩, by simpa using hpne⟩
    have hparent : parentSim sim A A h.2 h.2 = sim p p := by
      rw [hp2]
      rw [parentSim]
      rw [if_pos ⟨hpne, hpne, hpk, hpk⟩]
    have hself : combined defaultConfig sim A A h h = 1 := by
      rw [combined, hparent, hid, hid]
      norm_num [defaultConfig]
    have hrow1 : (1:ℚ) ∈ rowScores defaultConfig sim A A h := by
      rw [rowScores]
      exact List.mem_map.mpr ⟨h, hmem, hself⟩
    have hrowle : ∀ s ∈ rowScores defaultConfig sim A A h, s ≤ 1 := by
      intro s hs
      rcases List.mem_map.mp hs with ⟨c, _, rfl⟩
      exact (combined_bounds (by norm_num [defaultConfig]) (by norm_num [defaultConfig])
        (by norm_num [defaultConfig]) hrange h c).2
    have hvalid1 : (1:ℚ) ∈ validScores defaultConfig sim A A h := by
      rw [validScores]
      refine List.mem_filter.mpr ⟨?_, by norm_num [defaultConfig]⟩
      rw [topMatches]
      exact max_mem_take_sortedDesc hrow1 hrowle (by norm_num [defaultConfig])
    rw [nodeCoverage_eq_specNoisyOR, specNoisyOR]
    have h0 : ((validScores defaultConfig sim A A h).map (fun s => 1 - s)).prod = 0 :=
      List.prod_eq_zero (List.mem_map.mpr ⟨1, hvalid1, by norm_num⟩)
    rw [h0]
    norm_num
  have htot : totalCoverage defaultConfig sim A A = (A.length : ℚ) := by
    rw [totalCoverage, List.map_congr_left hcov]
    simp
  rw [score, if_neg hne, htot]
  have hlen : ((A.length : ℚ)) ≠ 0 := by
    have h0 : 0 < A.length := List.length_pos.mpr hne
    positivity
  rw [div_self hlen, one_mul]
  exact pyRound2_hundred

/-- Witness for the amended C1 at a concrete input: a one-node sequence whose
node carries the parent name `"p"`. -/
theorem self_coverage_of_parents_witness :
    score defaultConfig simIdOnly [("a", some "p")] [("a", some "p")] = 100 :=
  self_coverage_of_parents simIdOnly [("a", some "p")] (by simp)
    (by
      intro n hn
      simp only [List.mem_singleton] at hn
      subst hn
      exact ⟨"p", rfl, by simp⟩)
    (fun x => by simp [simIdOnly])
    (fun x y => by simp only [simIdOnly]; split_ifs <;> norm_num)

end Fame

namespace Fame

/-- Raising the threshold from `t1` to `t2` filters the valid set computed at
`t1`: the sorted, truncated score list does not depend on the threshold. -/
theorem validScores_threshold_filter (mn : String) {t1 t2 : ℚ} (k : ℕ) (fw pw : ℚ)
    (sim : String → String → ℚ) (human_nodes auto_nodes : List Node) (h : Node)
    (ht12 : t1 ≤ t2) :
    validScores ⟨mn, t2, k, fw, pw⟩ sim human_nodes auto_nodes h =
      (validScores ⟨mn, t1, k, fw, pw⟩ sim human_nodes auto_nodes h).filter
        (fun s => decide (t2 ≤ s)) := by
  have htop : topMatches ⟨mn, t2, k, fw, pw⟩ sim human_nodes auto_nodes h =
      topMatches ⟨mn, t1, k, fw, pw⟩ sim human_nodes auto_nodes h := rfl
  rw [validScores, validScores, htop, List.filter_filter]
  refine List.filter_congr ?_
  intro a _
  by_cases ha : t2 ≤ a
  · have ha1 : t1 ≤ a := le_trans ht12 ha
    simp [ha, ha1]
  · simp [ha]

theorem nodeCoverage_threshold_mono (mn : String) {t1 t2 : ℚ} (k : ℕ) {fw pw : ℚ}
    {sim : String → String → ℚ} (human_nodes auto_nodes : List Node) (h : Node)
    (hfw : 0 ≤ fw) (hpw : 0 ≤ pw) (hsum : fw + pw ≤ 1)
    (ht1 : 0 ≤ t1) (ht12 : t1 ≤ t2)
    (hsim : ∀ x y, -1 ≤ sim x y ∧ sim x y ≤ 1) :
    nodeCoverage ⟨mn, t2, k, fw, pw⟩ sim human_nodes auto_nodes h ≤
      nodeCoverage ⟨mn, t1, k, fw, pw⟩ sim human_nodes auto_nodes h := by
  rw [nodeCoverage_eq_specNoisyOR, nodeCoverage_eq_specNoisyOR, specNoisyOR, specNoisyOR,
    validScores_threshold_filter mn k fw pw sim human_nodes auto_nodes h ht12]
  have hmem : ∀ s ∈ validScores ⟨mn, t1, k, fw, pw⟩ sim human_nodes auto_nodes h,
      0 ≤ s ∧ s ≤ 1 := validScores_mem_unit hfw hpw hsum ht1 hsim
  have := oneSubProd_le_filter (fun s => decide (t2 ≤ s)) hmem
  linarith

/-- C4 counterexample: with in-range similarities (`simNeg` takes values
1 and `-1/2`), raising the threshold from `-1` to the default `0.35`
RAISES the score from `-45` to `0`: at threshold `-1` the negative combined
score `-0.45` enters the noisy-OR and makes the per-node coverage negative. -/
theorem score_threshold_counterexample :
    score ⟨"m", -1, 3, 9/10, 1/10⟩ simNeg [("a", none)] [("b", none)] = -45
  ∧ score ⟨"m", 7/20, 3, 9/10, 1/10⟩ simNeg [("a", none)] [("b", none)] = 0
  ∧ (∀ x y, -1 ≤ simNeg x y ∧ simNeg x y ≤ 1)
  ∧ ((-1 : ℚ) ≤ 7/20)
  ∧ ((-45 : ℚ) < 0) := by
  refine ⟨?_, ?_, fun x y => by simp only [simNeg]; split_ifs <;> norm_num,
    by norm_num, by norm_num⟩
  · have htot : totalCoverage ⟨"m", -1, 3, 9/10, 1/10⟩ simNeg
        [("a", none)] [("b", none)] = -9/20 := by
      simp [totalCoverage, nodeCoverage, validScores, topMatches, sortedDesc, rowScores,
        combined, parentSim, parentKeys, simNeg, List.insertionSort, List.orderedInsert]
      norm_num
    have h2 : totalCoverage ⟨"m", -1, 3, 9/10, 1/10⟩ simNeg [("a", none)] [("b", none)] /
        (([("a", none)] : List Node).length : ℚ) * 100 * 100 = ((-4500 : ℤ) : ℚ) := by
      rw [htot]
      norm_num
    rw [score_eval (by simp) h2]
    norm_num
  · have htot : totalCoverage ⟨"m", 7/20, 3, 9/10, 1/10⟩ simNeg
        [("a", none)] [("b", none)] = 0 := by
      simp [totalCoverage, nodeCoverage, validScores, topMatches, sortedDesc, rowScores,
        combined, parentSim, parentKeys, simNeg, List.insertionSort, List.orderedInsert]
      norm_num
    have h2 : totalCoverage ⟨"m", 7/20, 3, 9/10, 1/10⟩ simNeg [("a", none)] [("b", none)] /
        (([("a", none)] : List Node).length : ℚ) * 100 * 100 = ((0 : ℤ) : ℚ) := by
      rw [htot]
      norm_num
    rw [score_eval (by simp) h2]
    norm_num

/-- C4 amended: raising `similarity_threshold` never increases the score,
provided the lower threshold is nonnegative (so no negative combined score can
sit in a valid set), the weights are nonnegative and sum to at most 1, and the
provider's similarities lie in [-1, 1]; the default configuration satisfies
all of these. -/
theorem score_threshold_mono (mn : String) (t1 t2 : ℚ) (k : ℕ) (fw pw : ℚ)
    (sim : String → String → ℚ) (human_nodes auto_nodes : List Node)
    (hfw : 0 ≤ fw) (hpw : 0 ≤ pw) (hsum : fw + pw ≤ 1)
    (ht1 : 0 ≤ t1) (ht12 : t1 ≤ t2)
    (hsim : ∀ x y, -1 ≤ sim x y ∧ sim x y ≤ 1) :
    score ⟨mn, t2, k, fw, pw⟩ sim human_nodes auto_nodes ≤
      score ⟨mn, t1, k, fw, pw⟩ sim human_nodes auto_nodes := by
  by_cases hemp : human_nodes = []
  · rw [score, score, if_pos hemp, if_pos hemp]
  · rw [score, score, if_neg hemp, if_neg hemp]
    have hlen : 0 < ((human_nodes.length : ℚ)) := by
      have h0 : 0 < human_nodes.length := List.length_pos.mpr hemp
      exact_mod_cast h0
    have htot : totalCoverage ⟨mn, t2, k, fw, pw⟩ sim human_nodes auto_nodes ≤
        totalCoverage ⟨mn, t1, k, fw, pw⟩ sim human_nodes auto_nodes := by
      rw [totalCoverage, totalCoverage]
      refine List.sum_le_sum ?_
      intro h hh
      exact nodeCoverage_threshold_mono mn k human_nodes auto_nodes h
        hfw hpw hsum ht1 ht12 hsim
    refine pyRound2_mono ?_
    have hdiv : totalCoverage ⟨mn, t2, k, fw, pw⟩ sim human_nodes auto_nodes /
        (human_nodes.length : ℚ) ≤
        totalCoverage ⟨mn, t1, k, fw, pw⟩ sim human_nodes auto_nodes /
        (human_nodes.length : ℚ) := by
      exact div_le_div_of_nonneg_right htot hlen.le
    linarith

end Fame

namespace Fame

/-- Witness for the amended C4 at concrete thresholds 0.35 ≤ 0.5. -/
theorem score_threshold_mono_witness :
    score ⟨"m", 1/2, 3, 9/10, 1/10⟩ simIdOnly [("X", none)] [("X", none)] ≤
      score ⟨"m", 7/20, 3, 9/10, 1/10⟩ simIdOnly [("X", none)] [("X", none)] :=
  score_threshold_mono "m" (7/20) (1/2) 3 (9/10) (1/10) simIdOnly
    [("X", none)] [("X", none)]
    (by norm_num) (by norm_num) (by norm_num) (by norm_num) (by norm_num)
    (fun x y => by simp only [simIdOnly]; split_ifs <;> norm_num)

theorem nodeCoverage_topk_mono (mn : String) (t : ℚ) {k1 k2 : ℕ} {fw pw : ℚ}
    {sim : String → String → ℚ} (human_nodes auto_nodes : List Node) (h : Node)
    (hfw : 0 ≤ fw) (hpw : 0 ≤ pw) (hsum : fw + pw ≤ 1)
    (ht : 0 ≤ t) (hk : k1 ≤ k2)
    (hsim : ∀ x y, -1 ≤ sim x y ∧ sim x y ≤ 1) :
    nodeCoverage ⟨mn, t, k1, fw, pw⟩ sim human_nodes auto_nodes h ≤
      nodeCoverage ⟨mn, t, k2, fw, pw⟩ sim human_nodes auto_nodes h := by
  have hsplit : validScores ⟨mn, t, k2, fw, pw⟩ sim human_nodes auto_nodes h =
      validScores ⟨mn, t, k1, fw, pw⟩ sim human_nodes auto_nodes h ++
        (((sortedDesc (rowScores ⟨mn, t, k1, fw, pw⟩ sim human_nodes auto_nodes h)).drop
          k1).take (k2 - k1)).filter (fun s => decide (t ≤ s)) := by
    show ((sortedDesc (rowScores ⟨mn, t, k1, fw, pw⟩ sim human_nodes auto_nodes h)).take
        k2).filter (fun s => decide (t ≤ s)) = _
    conv_lhs => rw [show k2 = k1 + (k2 - k1) by omega]
    rw [List.take_add, List.filter_append]
    rfl
  have hmem1 : ∀ s ∈ validScores ⟨mn, t, k1, fw, pw⟩ sim human_nodes auto_nodes h,
      0 ≤ s ∧ s ≤ 1 := validScores_mem_unit hfw hpw hsum ht hsim
  have hmemE : ∀ s ∈ (((sortedDesc (rowScores ⟨mn, t, k1, fw, pw⟩ sim human_nodes
      auto_nodes h)).drop k1).take (k2 - k1)).filter (fun s => decide (t ≤ s)),
      0 ≤ s ∧ s ≤ 1 := by
    intro s hs
    have h1 := List.mem_filter.mp hs
    have h2 : s ∈ sortedDesc (rowScores ⟨mn, t, k1, fw, pw⟩ sim human_nodes auto_nodes h) :=
      List.mem_of_mem_drop (List.mem_of_mem_take h1.1)
    have h3 : s ∈ rowScores ⟨mn, t, k1, fw, pw⟩ sim human_nodes auto_nodes h :=
      mem_sortedDesc.mp h2
    rcases List.mem_map.mp h3 with ⟨c, _, rfl⟩
    exact ⟨le_trans ht (by simpa using h1.2), (combined_bounds hfw hpw hsum hsim h c).2⟩
  rw [nodeCoverage_eq_specNoisyOR, nodeCoverage_eq_specNoisyOR, specNoisyOR, specNoisyOR,
    hsplit, List.map_append, List.prod_append]
  have hP1 : 0 ≤ ((validScores ⟨mn, t, k1, fw, pw⟩ sim human_nodes auto_nodes
      h).map (fun s => 1 - s)).prod :=
    oneSubProd_nonneg (fun x hx => (hmem1 x hx).2)
  have hPEle : List.prod (List.map (fun s => 1 - s)
      ((((sortedDesc (rowScores ⟨mn, t, k1, fw, pw⟩ sim human_nodes auto_nodes
        h)).drop k1).take (k2 - k1)).filter (fun s => decide (t ≤ s)))) ≤ 1 :=
    oneSubProd_le_one hmemE
  nlinarith

/-- C5 counterexample: with in-range similarities and threshold `-1`,
growing `top_k` from 1 to 2 admits the negative combined score `-0.45` into
the noisy-OR and LOWERS the score from `50` to `27.5`. -/
theorem score_topk_counterexample :
    score ⟨"m", -1, 1, 9/10, 1/10⟩ simC5 [("a", none)] [("b", none), ("c", none)] = 50
  ∧ score ⟨"m", -1, 2, 9/10, 1/10⟩ simC5 [("a", none)] [("b", none), ("c", none)] = 55/2
  ∧ (∀ x y, -1 ≤ simC5 x y ∧ simC5 x y ≤ 1)
  ∧ ((55 : ℚ)/2 < 50) := by
  refine ⟨?_, ?_, fun x y => by simp only [simC5]; split_ifs <;> norm_num, by norm_num⟩
  · have htot : totalCoverage ⟨"m", -1, 1, 9/10, 1/10⟩ simC5
        [("a", none)] [("b", none), ("c", none)] = 1/2 := by
      simp [totalCoverage, nodeCoverage, validScores, topMatches, sortedDesc, rowScores,
        combined, parentSim, parentKeys, simC5, List.insertionSort, List.orderedInsert]
      norm_num
    have h2 : totalCoverage ⟨"m", -1, 1, 9/10, 1/10⟩ simC5 [("a", none)]
        [("b", none), ("c", none)] / (([("a", none)] : List Node).length : ℚ) * 100 * 100
        = ((5000 : ℤ) : ℚ) := by
      rw [htot]
      norm_num
    rw [score_eval (by simp) h2]
    norm_num
  · have htot : totalCoverage ⟨"m", -1, 2, 9/10, 1/10⟩ simC5
        [("a", none)] [("b", none), ("c", none)] = 11/40 := by
      simp [totalCoverage, nodeCoverage, validScores, topMatches, sortedDesc, rowScores,
        combined, parentSim, parentKeys, simC5, List.insertionSort, List.orderedInsert]
      norm_num
    have h2 : totalCoverage ⟨"m", -1, 2, 9/10, 1/10⟩ simC5 [("a", none)]
        [("b", none), ("c", none)] / (([("a", none)] : List Node).length : ℚ) * 100 * 100
        = ((2750 : ℤ) : ℚ) := by
      rw [htot]
      norm_num
    rw [score_eval (by simp) h2]
    norm_num

/-- C5 amended: increasing `top_k` never decreases the score, provided the
threshold is nonnegative (so every admitted score is nonnegative), the weights
are nonnegative and sum to at most 1, and the provider's similarities lie in
[-1, 1]; the default configuration satisfies all of these. -/
theorem score_topk_mono (mn : String) (t : ℚ) (k1 k2 : ℕ) (fw pw : ℚ)
    (sim : String → String → ℚ) (human_nodes auto_nodes : List Node)
    (hfw : 0 ≤ fw) (hpw : 0 ≤ pw) (hsum : fw + pw ≤ 1)
    (ht : 0 ≤ t) (hk : k1 ≤ k2)
    (hsim : ∀ x y, -1 ≤ sim x y ∧ sim x y ≤ 1) :
    score ⟨mn, t, k1, fw, pw⟩ sim human_nodes auto_nodes ≤
      score ⟨mn, t, k2, fw, pw⟩ sim human_nodes auto_nodes := by
  by_cases hemp : human_nodes = []
  · rw [score, score, if_pos hemp, if_pos hemp]
  · rw [score, score, if_neg hemp, if_neg hemp]
    have hlen : 0 < ((human_nodes.length : ℚ)) := by
      have h0 : 0 < human_nodes.length := List.length_pos.mpr hemp
      exact_mod_cast h0
    have htot : totalCoverage ⟨mn, t, k1, fw, pw⟩ sim human_nodes auto_nodes ≤
        totalCoverage ⟨mn, t, k2, fw, pw⟩ sim human_nodes auto_nodes := by
      rw [totalCoverage, totalCoverage]
      refine List.sum_le_sum ?_
      intro h hh
      exact nodeCoverage_topk_mono mn t human_nodes auto_nodes h
        hfw hpw hsum ht hk hsim
    refine pyRound2_mono ?_
    have hdiv := div_le_div_of_nonneg_right htot hlen.le
    linarith

/-- Witness for the amended C5 at concrete values of top-k 1 ≤ 3. -/
theorem score_topk_mono_witness :
    score ⟨"m", 7/20, 1, 9/10, 1/10⟩ simC2 [("r", none)] [("c1", none), ("c2", none)] ≤
      score ⟨"m", 7/20, 3, 9/10, 1/10⟩ simC2 [("r", none)] [("c1", none), ("c2", none)] :=
  score_topk_mono "m" (7/20) 1 3 (9/10) (1/10) simC2
    [("r", none)] [("c1", none), ("c2", none)]
    (by norm_num) (by norm_num) (by norm_num) (by norm_num) (by norm_num)
    (fun x y => by simp only [simC2]; split_ifs <;> norm_num)

end Fame

namespace Fame

/-- C8: with `feature_weight = 1` and `parent_weight = 0`, the score ignores
every parent name of the candidate sequence: any replacement of candidate
parents (same names, in order) leaves the returned score unchanged. -/
theorem score_parent_noninterference (mn : String) (t : ℚ) (k : ℕ)
    (sim : String → String → ℚ) (human_nodes auto_nodes auto_nodes' : List Node)
    (hnames : auto_nodes.map Prod.fst = auto_nodes'.map Prod.fst) :
    score ⟨mn, t, k, 1, 0⟩ sim human_nodes auto_nodes =
      score ⟨mn, t, k, 1, 0⟩ sim human_nodes auto_nodes' := by
  have hcomb : ∀ (an : List Node) (h c : Node),
      combined ⟨mn, t, k, 1, 0⟩ sim human_nodes an h c = sim h.1 c.1 := by
    intro an h c
    show (1 : ℚ) * sim h.1 c.1 + (0 : ℚ) * parentSim sim human_nodes an h.2 c.2 = _
    ring
  have hrow : ∀ h : Node, rowScores ⟨mn, t, k, 1, 0⟩ sim human_nodes auto_nodes h =
      rowScores ⟨mn, t, k, 1, 0⟩ sim human_nodes auto_nodes' h := by
    intro h
    rw [rowScores, rowScores,
      List.map_congr_left (fun c _ => hcomb auto_nodes h c),
      List.map_congr_left (fun c _ => hcomb auto_nodes' h c)]
    have h1 := congrArg (List.map (fun nm => sim h.1 nm)) hnames
    simpa [List.map_map, Function.comp] using h1
  have hcov : ∀ h : Node, nodeCoverage ⟨mn, t, k, 1, 0⟩ sim human_nodes auto_nodes h =
      nodeCoverage ⟨mn, t, k, 1, 0⟩ sim human_nodes auto_nodes' h := by
    intro h
    rw [nodeCoverage, nodeCoverage, validScores, validScores, topMatches, topMatches,
      hrow h]
  have htot : totalCoverage ⟨mn, t, k, 1, 0⟩ sim human_nodes auto_nodes =
      totalCoverage ⟨mn, t, k, 1, 0⟩ sim human_nodes auto_nodes' := by
    rw [totalCoverage, totalCoverage, List.map_congr_left (fun h _ => hcov h)]
  rw [score, score, htot]

/-- Witness for C8: scrambling the candidate parents (and even dropping one)
leaves the score unchanged when the parent weight is 0. -/
theorem score_parent_noninterference_witness :
    score ⟨"m", 7/20, 3, 1, 0⟩ simIdOnly [("a", some "p")]
        [("a", some "p"), ("b", some "q")] =
      score ⟨"m", 7/20, 3, 1, 0⟩ simIdOnly [("a", some "p")]
        [("a", some "q"), ("b", none)] :=
  score_parent_noninterference "m" (7/20) 3 simIdOnly [("a", some "p")]
    [("a", some "p"), ("b", some "q")] [("a", some "q"), ("b", none)] rfl

/-- Two permuted score lists have the same descending sort. -/
theorem sortedDesc_eq_of_perm {l l' : List ℚ} (hp : l.Perm l') :
    sortedDesc l = sortedDesc l' :=
  List.eq_of_perm_of_sorted (r := fun a b : ℚ => a ≥ b)
    ((List.perm_insertionSort _ l).trans (hp.trans (List.perm_insertionSort _ l').symm))
    (List.sorted_insertionSort (· ≥ ·) l) (List.sorted_insertionSort (· ≥ ·) l')

/-- C10: candidate-order invariance. Permuting the candidate node sequence
permutes each reference row's score list, the descending sort of a permuted
list is unchanged, and so are the top-k cut, the thresholding, the noisy-OR
products and the final score; candidate enumeration order feeds only the
verbose diagnostics. -/
theorem score_candidate_perm (cfg : CoverageConfig) (sim : String → String → ℚ)
    (human_nodes auto_nodes auto_nodes' : List Node)
    (hperm : auto_nodes.Perm auto_nodes') :
    score cfg sim human_nodes auto_nodes = score cfg sim human_nodes auto_nodes' := by
  have hpk : ∀ a : String, a ∈ parentKeys auto_nodes ↔ a ∈ parentKeys auto_nodes' :=
    fun a => ((hperm.filterMap Prod.snd).filter (fun s => decide (s ≠ ""))).mem_iff
  have hps : ∀ hp ap : Option String,
      parentSim sim human_nodes auto_nodes hp ap =
        parentSim sim human_nodes auto_nodes' hp ap := by
    intro hp ap
    rcases hp with _ | h0 <;> rcases ap with _ | a0 <;> simp only [parentSim]
    simp only [hpk a0]
  have hcomb : ∀ h c : Node,
      combined cfg sim human_nodes auto_nodes h c =
        combined cfg sim human_nodes auto_nodes' h c := by
    intro h c
    rw [combined, combined, hps h.2 c.2]
  have hrowperm : ∀ h : Node,
      (rowScores cfg sim human_nodes auto_nodes h).Perm
        (rowScores cfg sim human_nodes auto_nodes' h) := by
    intro h
    have h1 := hperm.map (fun c => combined cfg sim human_nodes auto_nodes h c)
    have h2 : auto_nodes'.map (fun c => combined cfg sim human_nodes auto_nodes h c) =
        auto_nodes'.map (fun c => combined cfg sim human_nodes auto_nodes' h c) :=
      List.map_congr_left (fun c _ => hcomb h c)
    rw [rowScores, rowScores]
    rw [h2] at h1
    exact h1
  have hcov : ∀ h : Node, nodeCoverage cfg sim human_nodes auto_nodes h =
      nodeCoverage cfg sim human_nodes auto_nodes' h := by
    intro h
    rw [nodeCoverage, nodeCoverage, validScores, validScores, topMatches, topMatches,
      sortedDesc_eq_of_perm (hrowperm h)]
  have htot : totalCoverage cfg sim human_nodes auto_nodes =
      totalCoverage cfg sim human_nodes auto_nodes' := by
    rw [totalCoverage, totalCoverage, List.map_congr_left (fun h _ => hcov h)]
  rw [score, score, htot]

/-- Witness for C10 at a concrete two-candidate swap. -/
theorem score_candidate_perm_witness :
    score defaultConfig simC2 [("r", none)] [("c1", none), ("c2", none)] =
      score defaultConfig simC2 [("r", none)] [("c2", none), ("c1", none)] :=
  score_candidate_perm defaultConfig simC2 [("r", none)]
    [("c1", none), ("c2", none)] [("c2", none), ("c1", none)]
    (List.Perm.swap _ _ _)

end Fame

namespace Fame

/-- C3: for a reference node and a candidate node drawn from the two
sequences (whose parent names respect the data-model invariant of being
non-empty when present), the combined score is exactly
`feature_weight * node_sim + parent_weight * parent_sim`, where `parent_sim`
is the similarity of the two parent names when both are non-null and `0.0`
otherwise — the membership tests against the embedded parent dictionaries
never fail for parents drawn from the sequences themselves. -/
theorem combined_weighted_sum (cfg : CoverageConfig) (sim : String → String → ℚ)
    (human_nodes auto_nodes : List Node) (h c : Node)
    (hh : h ∈ human_nodes) (hc : c ∈ auto_nodes)
    (hhp : ∀ n ∈ human_nodes, ∀ p, n.2 = some p → p ≠ "")
    (hap : ∀ n ∈ auto_nodes, ∀ p, n.2 = some p → p ≠ "") :
    combined cfg sim human_nodes auto_nodes h c =
      cfg.feature_weight * sim h.1 c.1 +
        cfg.parent_weight *
          (match h.2, c.2 with
           | some hp, some cp => sim hp cp
           | _, _ => 0) := by
  rw [combined]
  have hpar : parentSim sim human_nodes auto_nodes h.2 c.2 =
      (match h.2, c.2 with
       | some hp, some cp => sim hp cp
       | _, _ => 0) := by
    rcases hh2 : h.2 with _ | hp <;> rcases hc2 : c.2 with _ | cp <;>
      simp only [parentSim]
    have hpne : hp ≠ "" := hhp h hh hp hh2
    have hcne : cp ≠ "" := hap c hc cp hc2
    have hpmem : hp ∈ parentKeys human_nodes :=
      List.mem_filter.mpr ⟨List.mem_filterMap.mpr ⟨h, hh, hh2⟩, by simpa using hpne⟩
    have hcmem : cp ∈ parentKeys auto_nodes :=
      List.mem_filter.mpr ⟨List.mem_filterMap.mpr ⟨c, hc, hc2⟩, by simpa using hcne⟩
    rw [if_pos ⟨hpne, hcne, hpmem, hcmem⟩]
  rw [hpar]

/-- Witness for C3 at concrete nodes with parents `"p"` and `"q"`. -/
theorem combined_weighted_sum_witness :
    combined defaultConfig simIdOnly [("a", some "p")] [("b", some "q")]
        ("a", some "p") ("b", some "q") =
      defaultConfig.feature_weight * simIdOnly "a" "b" +
        defaultConfig.parent_weight * simIdOnly "p" "q" :=
  combined_weighted_sum defaultConfig simIdOnly [("a", some "p")] [("b", some "q")]
    ("a", some "p") ("b", some "q") (by simp) (by simp)
    (by
      intro n hn p hp
      simp only [List.mem_singleton] at hn
      subst hn
      cases hp
      simp)
    (by
      intro n hn p hp
      simp only [List.mem_singleton] at hn
      subst hn
      cases hp
      simp)

/-- C7: node extraction fails (with the `ValueError` of coverage.py line 25,
the spec's `FormatError`) exactly when the document has no direct child tagged
`struct`; when extraction of either input fails, `score` propagates that very
error to its caller instead of recovering. -/
theorem extract_nodes_error_iff :
    (∀ root : XElem, (∃ e, extract_nodes root = Except.error e) ↔
        ∀ c ∈ XElem.children root, XElem.tag c ≠ "struct")
  ∧ (∀ (cfg : CoverageConfig) (sim : String → String → ℚ) (hx ax : XElem) (e : String),
        extract_nodes hx = Except.error e →
        scoreXml cfg sim hx ax = Except.error e)
  ∧ (∀ (cfg : CoverageConfig) (sim : String → String → ℚ) (hx ax : XElem)
        (l : List Node) (e : String),
        extract_nodes hx = Except.ok l → extract_nodes ax = Except.error e →
        scoreXml cfg sim hx ax = Except.error e) := by
  refine ⟨?_, ?_, ?_⟩
  · intro root
    rcases hfind : (XElem.children root).find? (fun c => c.tag == "struct") with _ | st
    · constructor
      · intro _ c hc
        have hno := List.find?_eq_none.mp hfind c hc
        simpa using hno
      · intro _
        exact ⟨_, by rw [extract_nodes, hfind]⟩
    · have hst : st.tag = "struct" := by simpa using List.find?_some hfind
      have hmem : st ∈ XElem.children root := List.mem_of_find?_eq_some hfind
      constructor
      · rintro ⟨e, he⟩
        rw [extract_nodes, hfind] at he
        cases he
      · intro hall
        exact absurd hst (hall st hmem)
  · intro cfg sim hx ax e he
    simp only [scoreXml, he]
  · intro cfg sim hx ax l e h1 h2
    simp only [scoreXml, h1, h2]

end Fame
